import Mathlib

/-!
Verification of the spatial-mechanics repository's computational core.

The repository has two independent scripts:

* `src/codes/inv_det.py` — matrix inverses and determinants for a fixed
  4×4 homogeneous transform `H2`, its extracted 3×3 rotation block `R`,
  and a standalone 3×3 matrix `R_new`.  The numeric work is delegated to
  `np.linalg.inv` / `np.linalg.det`.  We embed the matrices over ℚ (exact
  arithmetic in place of the script's floating point) and model
  `np.linalg.inv` by the adjugate formula, which agrees with the unique
  two-sided inverse whenever the determinant is nonzero.

* `src/codes/orbital_welding_visualization.py` — closed-form geometry for
  a pipe surface mesh, tool frames at angular waypoints, and a fixed
  user→matplotlib axis remap.  We embed the geometric formulas over ℝ,
  with `Real.cos` / `Real.sin` in place of `np.cos` / `np.sin`.
-/

namespace SpatialMechanics

/-! ## Matrix utility (`inv_det.py`), embedded over ℚ -/

/-- The 4×4 homogeneous matrix `H2` of `inv_det.py` (lines 6–11):
rotation block `diag(1,-1,-1)` with translation column `(-5, 10, 8)`. -/
def H2 : Matrix (Fin 4) (Fin 4) ℚ :=
  !![1,  0,  0, -5;
     0, -1,  0, 10;
     0,  0, -1,  8;
     0,  0,  0,  1]

/-- Exact-arithmetic model of `np.linalg.inv` on a nonsingular matrix:
the classical adjugate formula `det⁻¹ • adjugate`.  On a nonsingular
matrix this is the unique two-sided inverse, which is the value
`np.linalg.inv` computes (up to floating-point rounding). -/
def npinv {n : ℕ} (A : Matrix (Fin n) (Fin n) ℚ) : Matrix (Fin n) (Fin n) ℚ :=
  A.det⁻¹ • A.adjugate

/-- Modelled from the spec: `np.linalg.inv` is an external collaborator
(not part of this repository's sources); per the spec it "fails ... when
M is singular (determinant ≈ 0)" and otherwise returns the inverse, and
the scripts propagate its failure unmodified.  In exact arithmetic the
failure condition is exactly `det = 0`. -/
def npLinalgInv {n : ℕ} (A : Matrix (Fin n) (Fin n) ℚ) :
    Except String (Matrix (Fin n) (Fin n) ℚ) :=
  if A.det = 0 then Except.error "Singular matrix" else Except.ok (npinv A)

/-- The script's per-matrix step (`inv_det.py` lines 13–14): compute the
inverse, then the determinant, with no exception handling of its own, so
a failure of the inversion routine propagates unmodified. -/
def invertAndDet {n : ℕ} (A : Matrix (Fin n) (Fin n) ℚ) :
    Except String (Matrix (Fin n) (Fin n) ℚ × ℚ) := do
  let Ainv ← npLinalgInv A
  pure (Ainv, A.det)

/-- `H2_inv = np.linalg.inv(H2)` of `inv_det.py` line 13. -/
def H2_inv : Matrix (Fin 4) (Fin 4) ℚ := npinv H2

/-- `det_H2 = np.linalg.det(H2)` of `inv_det.py` line 14. -/
def det_H2 : ℚ := H2.det

/-- `R = H2[:3, :3]` of `inv_det.py` line 23: the top-left 3×3 block. -/
def R : Matrix (Fin 3) (Fin 3) ℚ := H2.submatrix Fin.castSucc Fin.castSucc

/-- `R_inv = np.linalg.inv(R)` of `inv_det.py` line 25. -/
def R_inv : Matrix (Fin 3) (Fin 3) ℚ := npinv R

/-- `det_R = np.linalg.det(R)` of `inv_det.py` line 26. -/
def det_R : ℚ := R.det

/-- The standalone 3×3 matrix `R_new` of `inv_det.py` lines 35–39. -/
def R_new : Matrix (Fin 3) (Fin 3) ℚ :=
  !![ 0, -1,  0;
     -1,  0,  0;
      0,  0,  1]

/-- `det_R_new = np.linalg.det(R_new)` of `inv_det.py` line 41. -/
def det_R_new : ℚ := R_new.det

/-- `R_new_inv = np.linalg.inv(R_new)` of `inv_det.py` line 42. -/
def R_new_inv : Matrix (Fin 3) (Fin 3) ℚ := npinv R_new

/-- On a matrix of nonzero determinant, `npinv` is a right inverse. -/
theorem npinv_right {n : ℕ} (A : Matrix (Fin n) (Fin n) ℚ) (h : A.det ≠ 0) :
    A * npinv A = 1 := by
  unfold npinv
  rw [Matrix.mul_smul, Matrix.mul_adjugate, smul_smul, inv_mul_cancel₀ h, one_smul]

/-- On a matrix of nonzero determinant, `npinv` is a left inverse. -/
theorem npinv_left {n : ℕ} (A : Matrix (Fin n) (Fin n) ℚ) (h : A.det ≠ 0) :
    npinv A * A = 1 := by
  unfold npinv
  rw [Matrix.smul_mul, Matrix.adjugate_mul, smul_smul, inv_mul_cancel₀ h, one_smul]

/-- Any right inverse of a matrix with nonzero determinant is `npinv`. -/
theorem npinv_unique {n : ℕ} (A I : Matrix (Fin n) (Fin n) ℚ) (h : A.det ≠ 0)
    (hI : A * I = 1) : I = npinv A := by
  calc I = 1 * I := (one_mul I).symm
    _ = (npinv A * A) * I := by rw [npinv_left A h]
    _ = npinv A * (A * I) := by rw [Matrix.mul_assoc]
    _ = npinv A := by rw [hI, mul_one]

/-- The determinant of `H2` evaluates to 1 (block-triangular, rotation
block `diag(1,-1,-1)`). -/
theorem H2_det_eq : H2.det = 1 := by
  simp [H2, Matrix.det_succ_row_zero, Fin.sum_univ_succ]

/-- The extracted rotation block, written out entrywise. -/
theorem R_entries : R = !![1, 0, 0; 0, -1, 0; 0, 0, -1] := by decide

/-- The determinant of `R` evaluates to `1·(-1)·(-1) = 1`. -/
theorem R_det_eq : R.det = 1 := by
  rw [R_entries, Matrix.det_fin_three]; norm_num

/-- The determinant of `R_new` evaluates to -1. -/
theorem R_new_det_eq : R_new.det = -1 := by
  simp [R_new, Matrix.det_fin_three]

/-- `R` squares to the identity. -/
theorem R_mul_R : R * R = 1 := by
  rw [R_entries]
  ext i j
  fin_cases i <;> fin_cases j <;>
    simp [Matrix.mul_apply, Fin.sum_univ_succ, Matrix.one_apply]

/-! ## Frame geometry (`orbital_welding_visualization.py`), embedded over ℝ -/

/-- Vectors are user- or matplotlib-coordinate triples `(x, y, z)`. -/
abbrev Vec3 : Type := ℝ × ℝ × ℝ

/-- Componentwise `numpy` dot product of two 3-vectors. -/
def dot3 (u v : Vec3) : ℝ := u.1 * v.1 + u.2.1 * v.2.1 + u.2.2 * v.2.2

/-- `numpy` elementwise scalar multiplication of a 3-vector (the scripts
write `vec * scale`). -/
def smul3 (a : ℝ) (v : Vec3) : Vec3 := (a * v.1, a * v.2.1, a * v.2.2)

/-- `numpy` elementwise addition of 3-vectors. -/
def add3 (u v : Vec3) : Vec3 := (u.1 + v.1, u.2.1 + v.2.1, u.2.2 + v.2.2)

/-- Euclidean length of a 3-vector. -/
noncomputable def norm3 (v : Vec3) : ℝ := Real.sqrt (dot3 v v)

/-- `user_to_mpl` of `orbital_welding_visualization.py` lines 104–105
(repeated at lines 151–152): the user→matplotlib axis remap
`(x, y, z) ↦ (-x, z, y)`. -/
def user_to_mpl (v : Vec3) : Vec3 := (-v.1, v.2.2, v.2.1)

/-- `np.deg2rad` as used at `orbital_welding_visualization.py` line 86. -/
noncomputable def deg2rad (d : ℝ) : ℝ := d * Real.pi / 180

/-- Waypoint position in user coordinates
(`orbital_welding_visualization.py` line 91):
`(x_offset, r·cos θ, r·sin θ)` for the radian waypoint angle θ. -/
noncomputable def pos_user (x_offset radius θ : ℝ) : Vec3 :=
  (x_offset, radius * Real.cos θ, radius * Real.sin θ)

/-- Z-tool axis (radial outward normal) in user coordinates
(`orbital_welding_visualization.py` line 95). -/
noncomputable def z_tool_user (θ : ℝ) : Vec3 := (0, Real.cos θ, Real.sin θ)

/-- X-tool axis (tangent, direction of motion) in user coordinates
(`orbital_welding_visualization.py` line 98). -/
noncomputable def x_tool_user (θ : ℝ) : Vec3 := (0, -Real.sin θ, Real.cos θ)

/-- Y-tool axis (along the pipe axis) in user coordinates
(`orbital_welding_visualization.py` line 101). -/
def y_tool_user : Vec3 := (1, 0, 0)

/-- The geometric content of `plot_tool_frame`
(`orbital_welding_visualization.py` lines 84–110): the remapped waypoint
position followed by the three remapped, scale-multiplied tool axes. -/
noncomputable def plot_tool_frame (theta_deg radius scale x_offset : ℝ) :
    Vec3 × Vec3 × Vec3 × Vec3 :=
  let θ := deg2rad theta_deg
  (user_to_mpl (pos_user x_offset radius θ),
   smul3 scale (user_to_mpl (x_tool_user θ)),
   smul3 scale (user_to_mpl y_tool_user),
   smul3 scale (user_to_mpl (z_tool_user θ)))

/-- `np.linspace a b n`: `n` evenly spaced samples from `a` to `b`, both
endpoints included (`samples[i] = a + i·(b-a)/(n-1)`). -/
noncomputable def linspace (a b : ℝ) (n : ℕ) : Fin n → ℝ :=
  fun i => a + (b - a) * i / ((n : ℝ) - 1)

/-- `create_cylinder` of `orbital_welding_visualization.py` lines 60–82:
the pipe-surface mesh as the triple of matplotlib coordinate grids
`(X_mpl, Y_mpl, Z_mpl) = (-X_user, Z_user, Y_user)`, with
`X_user i j = x_pipe i`, `Y_user i j = r·cos (theta j)`,
`Z_user i j = r·sin (theta j)`, following `np.meshgrid(theta, x_pipe)`. -/
noncomputable def create_cylinder (radius height : ℝ) (num_points : ℕ) :
    (Fin num_points → Fin num_points → ℝ) ×
    (Fin num_points → Fin num_points → ℝ) ×
    (Fin num_points → Fin num_points → ℝ) :=
  let theta := linspace 0 (2 * Real.pi) num_points
  let x_pipe := linspace (-(height / 2)) (height / 2) num_points
  let Theta : Fin num_points → Fin num_points → ℝ := fun _ j => theta j
  let X_user : Fin num_points → Fin num_points → ℝ := fun i _ => x_pipe i
  let Y_user : Fin num_points → Fin num_points → ℝ := fun i j => radius * Real.cos (Theta i j)
  let Z_user : Fin num_points → Fin num_points → ℝ := fun i j => radius * Real.sin (Theta i j)
  (fun i j => -X_user i j, fun i j => Z_user i j, fun i j => Y_user i j)

/-- The X-tool axis has unit dot-square for every angle. -/
theorem dot3_x_tool (θ : ℝ) : dot3 (x_tool_user θ) (x_tool_user θ) = 1 := by
  simp only [dot3, x_tool_user]
  nlinarith [Real.sin_sq_add_cos_sq θ]

/-- The Y-tool axis has unit dot-square. -/
theorem dot3_y_tool : dot3 y_tool_user y_tool_user = 1 := by
  simp [dot3, y_tool_user]

/-- The Z-tool axis has unit dot-square for every angle. -/
theorem dot3_z_tool (θ : ℝ) : dot3 (z_tool_user θ) (z_tool_user θ) = 1 := by
  simp only [dot3, z_tool_user]
  nlinarith [Real.sin_sq_add_cos_sq θ]

/-- The user→matplotlib remap preserves dot products. -/
theorem dot3_user_to_mpl (u v : Vec3) :
    dot3 (user_to_mpl u) (user_to_mpl v) = dot3 u v := by
  simp only [dot3, user_to_mpl]
  ring

/-- The user→matplotlib remap commutes with scalar multiplication. -/
theorem user_to_mpl_smul3 (a : ℝ) (v : Vec3) :
    user_to_mpl (smul3 a v) = smul3 a (user_to_mpl v) := by
  simp [user_to_mpl, smul3]

/-- Scalars factor out of `dot3` quadratically. -/
theorem dot3_smul3 (a b : ℝ) (u v : Vec3) :
    dot3 (smul3 a u) (smul3 b v) = a * b * dot3 u v := by
  simp only [dot3, smul3]
  ring

/-- The first `np.linspace` sample is the left endpoint. -/
theorem linspace_first (a b : ℝ) {n : ℕ} (h : 0 < n) : linspace a b n ⟨0, h⟩ = a := by
  simp [linspace]

/-- The last `np.linspace` sample is the right endpoint (for `n ≥ 2`). -/
theorem linspace_last (a b : ℝ) {n : ℕ} (hn : 2 ≤ n) :
    linspace a b n ⟨n - 1, by omega⟩ = b := by
  have h1 : ((n : ℝ) - 1) ≠ 0 := by
    have h2 : (2 : ℝ) ≤ (n : ℝ) := by exact_mod_cast hn
    linarith
  have hc : ((↑(n - 1) : ℝ)) = (n : ℝ) - 1 := by
    have h3 : (1 : ℕ) ≤ n := by omega
    push_cast [Nat.cast_sub h3]
    ring
  simp only [linspace]
  rw [hc]
  field_simp

/-- Consecutive `np.linspace` samples differ by the constant step
`(b - a)/(n - 1)`. -/
theorem linspace_step (a b : ℝ) {n : ℕ} (i : Fin n) (h : i.val + 1 < n) :
    linspace a b n ⟨i.val + 1, h⟩ - linspace a b n i = (b - a) / ((n : ℝ) - 1) := by
  simp only [linspace]
  push_cast
  ring

/-! ## The claims -/

/-- C1: for every nonsingular square matrix `M` (exact arithmetic over ℚ
in place of the script's floating point), the invert operation returns
the unique matrix `I` with `M · I = 1`; in particular
`H2 · inverse(H2) = 1` for the hand-specified transform `H2`. -/
theorem C1_invert_unique_right_inverse :
    (∀ n : ℕ, ∀ M : Matrix (Fin n) (Fin n) ℚ, M.det ≠ 0 →
      M * npinv M = 1 ∧ ∀ I, M * I = 1 → I = npinv M) ∧
    H2 * H2_inv = 1 := by
  constructor
  · intro n M h
    exact ⟨npinv_right M h, fun I hI => npinv_unique M I h hI⟩
  · exact npinv_right H2 (by rw [H2_det_eq]; norm_num)

/-- Witness for C1 at the concrete input `H2`: its determinant is
nonzero and `H2 · npinv H2 = 1`. -/
theorem C1_witness : H2.det ≠ 0 ∧ H2 * npinv H2 = 1 :=
  ⟨by rw [H2_det_eq]; norm_num,
   (C1_invert_unique_right_inverse.1 4 H2 (by rw [H2_det_eq]; norm_num)).1⟩

/-- C2 counterexample: the claim "det(H2) = det(R) and both equal -1" is
false — both determinants evaluate to 1, not -1. -/
theorem C2_counterexample : ¬ (det_H2 = det_R ∧ det_H2 = -1 ∧ det_R = -1) := by
  intro h
  have h1 : det_H2 = 1 := H2_det_eq
  rw [h1] at h
  exact absurd h.2.1 (by norm_num)

/-- C2 (amended): `det(H2) = det(R)` — translation does not affect the
determinant of a homogeneous transform — and both values equal 1. -/
theorem C2_det_equals_rotation_det : det_H2 = det_R ∧ det_H2 = 1 ∧ det_R = 1 := by
  have h1 : det_H2 = 1 := H2_det_eq
  have h2 : det_R = 1 := R_det_eq
  exact ⟨h1.trans h2.symm, h1, h2⟩

/-- C3: for every waypoint angle θ (all real θ, in particular every θ in
[0°, 360°)), the three tool-frame axes `X-tool = (0, -sin θ, cos θ)`,
`Y-tool = (1, 0, 0)`, `Z-tool = (0, cos θ, sin θ)` are pairwise
orthogonal and each of unit length. -/
theorem C3_tool_axes_orthonormal (θ : ℝ) :
    dot3 (x_tool_user θ) y_tool_user = 0 ∧
    dot3 (x_tool_user θ) (z_tool_user θ) = 0 ∧
    dot3 y_tool_user (z_tool_user θ) = 0 ∧
    norm3 (x_tool_user θ) = 1 ∧
    norm3 y_tool_user = 1 ∧
    norm3 (z_tool_user θ) = 1 := by
  refine ⟨?_, ?_, ?_, ?_, ?_, ?_⟩
  · simp [dot3, x_tool_user, y_tool_user]
  · simp only [dot3, x_tool_user, z_tool_user]; ring
  · simp [dot3, y_tool_user, z_tool_user]
  · rw [norm3, dot3_x_tool, Real.sqrt_one]
  · rw [norm3, dot3_y_tool, Real.sqrt_one]
  · rw [norm3, dot3_z_tool, Real.sqrt_one]

/-- C4: the user→render remap `(x, y, z) ↦ (-x, z, y)` is an involution:
applying it twice returns the original vector exactly. -/
theorem C4_remap_involution (v : Vec3) : user_to_mpl (user_to_mpl v) = v := by
  obtain ⟨x, y, z⟩ := v
  simp [user_to_mpl]

/-- C5: the extracted rotation block `R = diag(1,-1,-1)` is its own
inverse (`inverse(R) = R`, equivalently `R · R = 1`), and
`det(R) = 1·(-1)·(-1) = 1`. -/
theorem C5_R_self_inverse_det_one : R_inv = R ∧ R * R = 1 ∧ det_R = 1 := by
  have h : R.det ≠ 0 := by rw [R_det_eq]; norm_num
  exact ⟨(npinv_unique R R h R_mul_R).symm, R_mul_R, R_det_eq⟩

/-- C6: for the standalone matrix `R_new = [[0,-1,0],[-1,0,0],[0,0,1]]`,
`R_new · inverse(R_new) = 1` and `det(R_new) = -1`. -/
theorem C6_R_new_inverse_and_det : R_new * R_new_inv = 1 ∧ det_R_new = -1 := by
  constructor
  · exact npinv_right R_new (by rw [R_new_det_eq]; norm_num)
  · exact R_new_det_eq

/-- C7: for every radius `r > 0`, length `L > 0` and sample count
`n ≥ 2`, `create_cylinder` produces an `n×n` grid whose point for the
`j`-th angle sample at the `i`-th longitudinal sample is
`(x, r·cos θ, r·sin θ)` in user coordinates remapped by `user_to_mpl` to
`(-x, r·sin θ, r·cos θ)`; the longitudinal samples run linearly over
`[-L/2, L/2]` and the angle samples uniformly over `[0, 2π]` (endpoints
attained, constant steps). -/
theorem C7_create_cylinder_grid (r L : ℝ) (n : ℕ)
    (hr : 0 < r) (hL : 0 < L) (hn : 2 ≤ n) :
    (∀ i j : Fin n,
      ((create_cylinder r L n).1 i j, (create_cylinder r L n).2.1 i j,
        (create_cylinder r L n).2.2 i j) =
        user_to_mpl (linspace (-(L / 2)) (L / 2) n i,
          r * Real.cos (linspace 0 (2 * Real.pi) n j),
          r * Real.sin (linspace 0 (2 * Real.pi) n j))) ∧
    linspace (-(L / 2)) (L / 2) n ⟨0, by omega⟩ = -(L / 2) ∧
    linspace (-(L / 2)) (L / 2) n ⟨n - 1, by omega⟩ = L / 2 ∧
    (∀ i : Fin n, ∀ h : i.val + 1 < n,
      linspace (-(L / 2)) (L / 2) n ⟨i.val + 1, h⟩ - linspace (-(L / 2)) (L / 2) n i
        = L / ((n : ℝ) - 1)) ∧
    linspace 0 (2 * Real.pi) n ⟨0, by omega⟩ = 0 ∧
    linspace 0 (2 * Real.pi) n ⟨n - 1, by omega⟩ = 2 * Real.pi ∧
    (∀ j : Fin n, ∀ h : j.val + 1 < n,
      linspace 0 (2 * Real.pi) n ⟨j.val + 1, h⟩ - linspace 0 (2 * Real.pi) n j
        = 2 * Real.pi / ((n : ℝ) - 1)) := by
  refine ⟨?_, linspace_first _ _ (by omega), linspace_last _ _ hn, ?_,
    linspace_first _ _ (by omega), linspace_last _ _ hn, ?_⟩
  · intro i j
    simp [create_cylinder, user_to_mpl]
  · intro i h
    rw [linspace_step _ _ i h]
    ring
  · intro j h
    rw [linspace_step _ _ j h]
    ring

/-- Witness for C7 at the script's concrete parameters
`r = 100`, `L = 250`, `n = 30`, evaluated at grid index (0, 0). -/
theorem C7_witness :
    ((create_cylinder 100 250 30).1 ⟨0, by norm_num⟩ ⟨0, by norm_num⟩,
      (create_cylinder 100 250 30).2.1 ⟨0, by norm_num⟩ ⟨0, by norm_num⟩,
      (create_cylinder 100 250 30).2.2 ⟨0, by norm_num⟩ ⟨0, by norm_num⟩) =
      user_to_mpl (linspace (-(250 / 2 : ℝ)) (250 / 2) 30 ⟨0, by norm_num⟩,
        100 * Real.cos (linspace 0 (2 * Real.pi) 30 ⟨0, by norm_num⟩),
        100 * Real.sin (linspace 0 (2 * Real.pi) 30 ⟨0, by norm_num⟩)) :=
  (C7_create_cylinder_grid 100 250 30 (by norm_num) (by norm_num) (by norm_num)).1
    ⟨0, by norm_num⟩ ⟨0, by norm_num⟩

/-- C8: the (modelled) inversion routine fails exactly on matrices of
determinant 0; on every nonsingular matrix it succeeds with a two-sided
inverse; and the script step `invertAndDet` propagates the failure
unmodified rather than special-casing it. -/
theorem C8_inv_fails_iff_singular :
    (∀ n : ℕ, ∀ M : Matrix (Fin n) (Fin n) ℚ,
      ((∃ e, npLinalgInv M = Except.error e) ↔ M.det = 0)) ∧
    (∀ n : ℕ, ∀ M : Matrix (Fin n) (Fin n) ℚ, M.det ≠ 0 →
      ∃ B, npLinalgInv M = Except.ok B ∧ M * B = 1 ∧ B * M = 1) ∧
    (∀ n : ℕ, ∀ M : Matrix (Fin n) (Fin n) ℚ, ∀ e,
      npLinalgInv M = Except.error e → invertAndDet M = Except.error e) := by
  refine ⟨?_, ?_, ?_⟩
  · intro n M
    constructor
    · rintro ⟨e, he⟩
      by_contra hdet
      simp [npLinalgInv, hdet] at he
    · intro hdet
      exact ⟨"Singular matrix", by simp [npLinalgInv, hdet]⟩
  · intro n M h
    exact ⟨npinv M, by simp [npLinalgInv, h], npinv_right M h, npinv_left M h⟩
  · intro n M e he
    simp [invertAndDet, he]

/-- Witness for C8: the zero 2×2 matrix is singular and makes the
routine fail; the nonsingular `H2` makes it succeed with its inverse. -/
theorem C8_witness :
    (∃ e, npLinalgInv (0 : Matrix (Fin 2) (Fin 2) ℚ) = Except.error e) ∧
    ∃ B, npLinalgInv H2 = Except.ok B ∧ H2 * B = 1 ∧ B * H2 = 1 :=
  ⟨(C8_inv_fails_iff_singular.1 2 0).mpr (by simp),
   C8_inv_fails_iff_singular.2.1 4 H2 (by rw [H2_det_eq]; norm_num)⟩

/-- A scale-multiplied unit vector has length equal to the (nonnegative)
scale factor. -/
theorem norm3_smul3_unit (s : ℝ) (hs : 0 ≤ s) (w : Vec3) (hw : dot3 w w = 1) :
    norm3 (smul3 s w) = s := by
  rw [norm3, dot3_smul3, hw]
  have h : s * s * 1 = s ^ 2 := by ring
  rw [h, Real.sqrt_sq hs]

/-- C9: the user→render remap is a linear orthogonal map — it preserves
dot products (hence Euclidean norms) and commutes with scalar
multiplication — so the remapped, scale-multiplied tool-frame axes
produced by `plot_tool_frame` remain mutually orthogonal and each has
length exactly the (nonnegative) scale factor. -/
theorem C9_remap_orthogonal_linear :
    (∀ u v : Vec3, dot3 (user_to_mpl u) (user_to_mpl v) = dot3 u v) ∧
    (∀ v : Vec3, norm3 (user_to_mpl v) = norm3 v) ∧
    (∀ a : ℝ, ∀ v : Vec3, user_to_mpl (smul3 a v) = smul3 a (user_to_mpl v)) ∧
    (∀ theta_deg radius scale x_offset : ℝ,
      dot3 (plot_tool_frame theta_deg radius scale x_offset).2.1
        (plot_tool_frame theta_deg radius scale x_offset).2.2.1 = 0 ∧
      dot3 (plot_tool_frame theta_deg radius scale x_offset).2.1
        (plot_tool_frame theta_deg radius scale x_offset).2.2.2 = 0 ∧
      dot3 (plot_tool_frame theta_deg radius scale x_offset).2.2.1
        (plot_tool_frame theta_deg radius scale x_offset).2.2.2 = 0) ∧
    (∀ theta_deg radius scale x_offset : ℝ, 0 ≤ scale →
      norm3 (plot_tool_frame theta_deg radius scale x_offset).2.1 = scale ∧
      norm3 (plot_tool_frame theta_deg radius scale x_offset).2.2.1 = scale ∧
      norm3 (plot_tool_frame theta_deg radius scale x_offset).2.2.2 = scale) := by
  refine ⟨dot3_user_to_mpl, ?_, user_to_mpl_smul3, ?_, ?_⟩
  · intro v
    rw [norm3, norm3, dot3_user_to_mpl]
  · intro theta_deg radius scale x_offset
    refine ⟨?_, ?_, ?_⟩ <;>
      · simp only [plot_tool_frame, dot3_smul3, dot3_user_to_mpl]
        simp only [dot3, x_tool_user, y_tool_user, z_tool_user]
        ring
  · intro theta_deg radius scale x_offset hs
    refine ⟨?_, ?_, ?_⟩
    · show norm3 (smul3 scale (user_to_mpl (x_tool_user (deg2rad theta_deg)))) = scale
      exact norm3_smul3_unit scale hs _
        (by rw [dot3_user_to_mpl]; exact dot3_x_tool _)
    · show norm3 (smul3 scale (user_to_mpl y_tool_user)) = scale
      exact norm3_smul3_unit scale hs _
        (by rw [dot3_user_to_mpl]; exact dot3_y_tool)
    · show norm3 (smul3 scale (user_to_mpl (z_tool_user (deg2rad theta_deg)))) = scale
      exact norm3_smul3_unit scale hs _
        (by rw [dot3_user_to_mpl]; exact dot3_z_tool _)

/-- Witness for C9 at the script's parameters (waypoint 0°, radius 100,
scale 60, x_offset -80): the remapped, scaled X-tool axis has length
exactly 60. -/
theorem C9_witness :
    norm3 (plot_tool_frame 0 100 60 (-80)).2.1 = 60 ∧
    norm3 (plot_tool_frame 0 100 60 (-80)).2.2.1 = 60 ∧
    norm3 (plot_tool_frame 0 100 60 (-80)).2.2.2 = 60 :=
  C9_remap_orthogonal_linear.2.2.2.2 0 100 60 (-80) (by norm_num)

/-- C10: for every waypoint angle θ, radius `r` and offset `x_offset`,
the waypoint position `(x_offset, r·cos θ, r·sin θ)` equals
`(x_offset, 0, 0) + r · Z-tool`; it lies on the circle of radius `r`
about the pipe axis in the plane `x = x_offset`, and the Z-tool axis is
a unit (outward normal) vector there. -/
theorem C10_waypoint_on_circle (θ radius x_offset : ℝ) :
    pos_user x_offset radius θ = add3 (x_offset, 0, 0) (smul3 radius (z_tool_user θ)) ∧
    (pos_user x_offset radius θ).1 = x_offset ∧
    (pos_user x_offset radius θ).2.1 ^ 2 + (pos_user x_offset radius θ).2.2 ^ 2
      = radius ^ 2 ∧
    norm3 (z_tool_user θ) = 1 ∧
    (0 ≤ radius →
      Real.sqrt ((pos_user x_offset radius θ).2.1 ^ 2 + (pos_user x_offset radius θ).2.2 ^ 2)
        = radius) := by
  have hsq : (pos_user x_offset radius θ).2.1 ^ 2 + (pos_user x_offset radius θ).2.2 ^ 2
      = radius ^ 2 := by
    simp only [pos_user]
    nlinarith [Real.sin_sq_add_cos_sq θ]
  refine ⟨?_, rfl, hsq, ?_, ?_⟩
  · simp [pos_user, add3, smul3, z_tool_user]
  · rw [norm3, dot3_z_tool, Real.sqrt_one]
  · intro hr
    rw [hsq, Real.sqrt_sq hr]

/-- Witness for C10 at the spec's concrete waypoint: θ = 0°, radius 100,
x_offset -80 — the position is at distance exactly 100 from the axis. -/
theorem C10_witness :
    Real.sqrt ((pos_user (-80) 100 0).2.1 ^ 2 + (pos_user (-80) 100 0).2.2 ^ 2) = 100 :=
  (C10_waypoint_on_circle 0 100 (-80)).2.2.2.2 (by norm_num)

end SpatialMechanics
